import Mathlib

/-!
# snag: frame capture, threshold classification, diff-write and pacing

A shallow embedding of the capture loop of `snag.c` (function `main`) and of
the option handling and start-up checks that feed it.

Conventions of the embedding.

* `uint16_t` samples, `uint8_t` bytes and `uint32_t` values are natural numbers;
  reductions modulo `2 ^ w` are written where the C code narrows a value.
* `int` and `suseconds_t` values are integers; C division is `Int.tdiv`.
* Memory regions (`fbp`, the two `malloc` blocks) are functions from an offset,
  counted in elements of the pointer type, to the stored value.
* `for` loops are left folds over `List.range bound`.
* The pass carries a ghost log `writes` of the offsets stored to by the
  one-byte `memcpy` into the destination.
-/

namespace Snag

/-! ## Option handling: `--fps` -/

/-- Source constant `DEFAULT_FPS`. -/
def DEFAULT_FPS : Int := 50

/-- The locals `fps` and `frameDuration` of `main`. -/
structure Timing where
  fps : Int
  frameDuration : Int
  deriving DecidableEq, Repr

/-- Initial values: `int fps = DEFAULT_FPS; suseconds_t frameDuration = 1000000 / fps;`. -/
def initialTiming : Timing :=
  { fps := DEFAULT_FPS, frameDuration := Int.tdiv 1000000 DEFAULT_FPS }

/-- Case `f` of the option switch, with `optarg` already converted by `atoi`.
The result is `none` when the `else` branch divides by a zero `frameDuration`. -/
def fpsOption (optarg : Int) (t : Timing) : Option Timing :=
  let fps := optarg
  if fps > 0 then
    some { fps := fps, frameDuration := Int.tdiv 1000000 fps }
  else if t.frameDuration = 0 then
    none
  else
    some { fps := Int.tdiv 1000000 t.frameDuration, frameDuration := t.frameDuration }

/-- The option loop restricted to its `--fps` occurrences, in command-line order. -/
def fpsOptions : List Int → Timing → Option Timing
  | [], t => some t
  | optarg :: rest, t =>
    match fpsOption optarg t with
    | none => none
    | some t1 => fpsOptions rest t1

/-! ## Pacing -/

/-- The tail of the loop body: `some d` when `usleep(d)` is called, `none` when
the loop continues without sleeping. `tv_sec` and `tv_usec` are the fields of
`elapsed_time`. -/
def pacer (frameDuration tv_sec tv_usec : Int) : Option Int :=
  if tv_sec = 0 then
    if tv_usec < frameDuration then
      some (frameDuration - tv_usec)
    else
      none
  else
    none

/-! ## Start-up geometry checks -/

/-- Narrowing store `copyRectX = atoi(optarg)` into a `uint16_t`. -/
def toUint16 (n : Int) : Nat := (n % 65536).toNat

/-- The expression `info.width - vinfo.xres`: an `int32_t` minus a `__u32`, which C
evaluates in unsigned 32-bit arithmetic. -/
def subU32 (srcDim : Int) (dstDim : Nat) : Nat := ((srcDim - (dstDim : Int)) % 2 ^ 32).toNat

/-- Outcome of the two rectangle checks. -/
inductive Startup where
  | exitFailure
  | proceeds
  deriving DecidableEq, Repr

/-- The checks `copyRectX > (info.width - vinfo.xres)` and
`copyRectY > (info.height - vinfo.yres)`, each followed by a failure exit. -/
def checkRect (copyRectX copyRectY : Nat) (width height : Int) (xres yres : Nat) : Startup :=
  if copyRectX > subU32 width xres then
    Startup.exitFailure
  else if copyRectY > subU32 height yres then
    Startup.exitFailure
  else
    Startup.proceeds

/-- Options `--rectx`, `--recty` followed by the rectangle checks. -/
def startupGeometry (rectx recty : Int) (width height : Int) (xres yres : Nat) : Startup :=
  checkRect (toUint16 rectx) (toUint16 recty) width height xres yres

/-! ## Pixel classification -/

/-- Source `uint8_t red = ((*frontCopyIter >> 8) & 0xF8)`. -/
def red (s : Nat) : Nat := ((s >>> 8) &&& 0xF8) % 256

/-- Source `uint8_t green = ((*frontCopyIter >> 3) & 0xFC)`. -/
def green (s : Nat) : Nat := ((s >>> 3) &&& 0xFC) % 256

/-- Source `uint8_t blue = ((*frontCopyIter << 3) & 0xF8)`. -/
def blue (s : Nat) : Nat := ((s <<< 3) &&& 0xF8) % 256

/-- Source `uint8_t grayscale = (int)((red + green + blue)/3)` followed by the clamp
`grayscale > 255 ? 255 : grayscale`. -/
def grayscale (s : Nat) : Nat :=
  let g := ((red s + green s + blue s) / 3) % 256
  if g > 255 then 255 else g

/-- Source `uint8_t newbit = 1; if (grayscale < 140) newbit = 0;`. -/
def newbit (s : Nat) : Nat := if grayscale s < 140 then 0 else 1

/-! ## The diff-write pass -/

/-- Mutable state of the nested loops: destination bytes at `fbp`, the two
sample iterators as offsets from the start of their arrays, and the log of
destination offsets written. -/
structure Pass where
  fbp : Nat → Nat
  frontCopyIter : Nat
  backCopyIter : Nat
  writes : List Nat

/-- One iteration of the inner loop for `fb_chunk_bit`. `front` and `back` are
the arrays at `frontCopyP` and `backCopyP`; `buffer_chunk` is the 8-byte local
copy taken at the start of the chunk, read back as `uint8_t oldbit`. The store
`memcpy(fbp + (fb_chunk * 8) + fb_chunk_bit, &newbit, 1)` replaces one whole byte. -/
def pixelStep (front back : Nat → Nat) (buffer_chunk : Nat → Nat)
    (fb_chunk fb_chunk_bit : Nat) (p : Pass) : Pass :=
  let p1 : Pass :=
    if front p.frontCopyIter ≠ back p.backCopyIter then
      let nb := newbit (front p.frontCopyIter)
      let oldbit := buffer_chunk fb_chunk_bit
      if nb ≠ oldbit then
        { p with
          fbp := Function.update p.fbp (fb_chunk * 8 + fb_chunk_bit) nb
          writes := p.writes ++ [fb_chunk * 8 + fb_chunk_bit] }
      else p
    else p
  { p1 with frontCopyIter := p1.frontCopyIter + 1, backCopyIter := p1.backCopyIter + 1 }

/-- One iteration of the outer loop: `memcpy(buffer_chunk, fbp + (fb_chunk * 8), 8)`
followed by the inner loop over `fb_chunk_bit < 8`. -/
def chunkStep (front back : Nat → Nat) (fb_chunk : Nat) (p : Pass) : Pass :=
  let buffer_chunk : Nat → Nat := fun k => p.fbp (fb_chunk * 8 + k)
  (List.range 8).foldl
    (fun q fb_chunk_bit => pixelStep front back buffer_chunk fb_chunk fb_chunk_bit q) p

/-- The outer loop with bound `chunks`, entered with both iterators at the start
of their arrays. -/
def diffLoop (chunks : Nat) (front back fbp : Nat → Nat) : Pass :=
  (List.range chunks).foldl (fun p fb_chunk => chunkStep front back fb_chunk p)
    { fbp := fbp, frontCopyIter := 0, backCopyIter := 0, writes := [] }

/-- Loop bound of the source: `fb_chunk < 12000`. -/
def CHUNKS : Nat := 12000

/-- Number of pixel positions visited by one pass, `12000 * 8`. -/
def PIXELS : Nat := CHUNKS * 8

/-- The pass as it appears in `main`. -/
def diffWriter (front back fbp : Nat → Nat) : Pass := diffLoop CHUNKS front back fbp

/-! ## Program state across cycles -/

/-- The two blocks returned by `malloc(len)`. -/
inductive Block where
  | mallocBack
  | mallocFront
  deriving DecidableEq, Repr

/-- Mapped destination, sample arrays, and the two pointers into them. -/
structure State where
  fbp : Nat → Nat
  heap : Block → Nat → Nat
  frontCopyP : Block
  backCopyP : Block

/-- Values reported by the framebuffer ioctls that size the two `memset` calls; each
field is a `__u32`. -/
structure Device where
  smem_len : Nat
  line_length : Nat
  yres : Nat

/-- Product of two `__u32` values, which C reduces modulo `2 ^ 32`. -/
def mulU32 (a b : Nat) : Nat := a * b % 2 ^ 32

/-- Byte-wise `memset(p, c, n)` on a byte region. -/
def memset (p : Nat → Nat) (c n : Nat) : Nat → Nat :=
  fun i => if i < n then c % 256 else p i

/-- Byte-wise `memset(p, c, n)` seen through a `uint16_t` pointer: sample `i`
occupies bytes `2 * i` (low) and `2 * i + 1` (high). -/
def memset16 (p : Nat → Nat) (c n : Nat) : Nat → Nat :=
  fun i =>
    (if 2 * i < n then c % 256 else p i % 256)
      + 256 * (if 2 * i + 1 < n then c % 256 else p i / 256 % 256)

/-- State on entry to the loop: `memset(fbp, 0, chunks)` with
`chunks = finfo.smem_len/8`, and `memset(backCopyP, 1, finfo.line_length * vinfo.yres)`.
`fbp0` and `heap0` are the contents found before the two calls. -/
def startup (d : Device) (fbp0 : Nat → Nat) (heap0 : Block → Nat → Nat) : State :=
  { fbp := memset fbp0 0 (d.smem_len / 8)
    heap := Function.update heap0 Block.mallocBack
      (memset16 (heap0 Block.mallocBack) 1 (mulU32 d.line_length d.yres))
    frontCopyP := Block.mallocFront
    backCopyP := Block.mallocBack }

/-- A device whose two start-up `memset` calls cover all 96000 pixel positions. -/
def sampleDevice : Device := { smem_len := 768000, line_length := 800, yres := 240 }

/-- A device whose back-array `memset` covers 96000 bytes, the first 48000 samples
only; the destination `memset` covers all 96000 cells. -/
def shortFillDevice : Device := { smem_len := 768000, line_length := 400, yres := 240 }

/-- A 400x240 device at 16 bits per pixel: the destination `memset` covers
`192000 / 8 = 24000` cells only; the back-array `memset` covers all 96000 samples. -/
def smallMapDevice : Device := { smem_len := 192000, line_length := 800, yres := 240 }

/-- Effect of `vc_dispmanx_resource_read_data(.., frontCopyP, ..)`: afterwards the
array at `frontCopyP` holds `capture`, which stands for whatever contents the call
leaves there; the other array is not written. -/
def readData (capture : Nat → Nat) (s : State) : State :=
  { s with heap := Function.update s.heap s.frontCopyP capture }

/-- The pass run on the current state. -/
def passOf (s : State) : Pass :=
  diffWriter (s.heap s.frontCopyP) (s.heap s.backCopyP) s.fbp

/-- The state after the pass: only the destination bytes change. -/
def diffPass (s : State) : State :=
  { s with fbp := (passOf s).fbp }

/-- Source `tmp = backCopyP; backCopyP = frontCopyP; frontCopyP = tmp;`. -/
def swap (s : State) : State :=
  { s with backCopyP := s.frontCopyP, frontCopyP := s.backCopyP }

/-- One loop iteration up to and including the pointer exchange. -/
def cycle (capture : Nat → Nat) (s : State) : State :=
  swap (diffPass (readData capture s))

/-- States on entry to a loop iteration: the start-up state, or the state left
by a cycle run from such a state. -/
inductive Reachable (d : Device) : State → Prop where
  | init (fbp0 : Nat → Nat) (heap0 : Block → Nat → Nat) : Reachable d (startup d fbp0 heap0)
  | step (capture : Nat → Nat) (s : State) : Reachable d s → Reachable d (cycle capture s)

/-- Number of offsets below `n` at which two byte regions differ. -/
def modifiedCells (n : Nat) (before after : Nat → Nat) : Nat :=
  ((List.range n).filter (fun i => decide (before i ≠ after i))).length

/-- Number of positions below `n` at which two captures classify differently. -/
def classDiffs (n : Nat) (a b : Nat → Nat) : Nat :=
  ((List.range n).filter (fun i => decide (newbit (a i) ≠ newbit (b i)))).length

/-- What a pass entered with destination `fbp0` leaves after visiting the first
`n` pixel positions. -/
structure PassInv (front back fbp0 : Nat → Nat) (n : Nat) (p : Pass) : Prop where
  hfront : p.frontCopyIter = n
  hback : p.backCopyIter = n
  hfbp : ∀ i, p.fbp i = if i < n ∧ front i ≠ back i then newbit (front i) else fbp0 i
  hwrites : p.writes =
    (List.range n).filter (fun i => decide (front i ≠ back i ∧ newbit (front i) ≠ fbp0 i))

/-! ## Loop invariant of the pass -/

theorem pixelStep_inv (front back fbp0 buffer_chunk : Nat → Nat) (fb_chunk fb_chunk_bit n : Nat)
    (p : Pass) (hp : PassInv front back fbp0 n p)
    (hbuf : buffer_chunk fb_chunk_bit = fbp0 n) (hoff : fb_chunk * 8 + fb_chunk_bit = n) :
    PassInv front back fbp0 (n + 1) (pixelStep front back buffer_chunk fb_chunk fb_chunk_bit p) := by
  obtain ⟨hf, hb, hm, hw⟩ := hp
  unfold pixelStep
  rw [hf, hb, hbuf, hoff]
  by_cases hne : front n = back n
  · simp only [hne, ne_eq, not_true_eq_false, if_false]
    refine ⟨by simp [hf], by simp [hb], ?_, ?_⟩
    · intro i
      simp only [hm i]
      by_cases hi : i = n
      · subst hi; simp [hne]
      · have : (i < n + 1) ↔ (i < n) := by omega
        simp [this]
    · simp [hw, List.range_succ, List.filter_append, hne]
  · by_cases hnb : newbit (front n) = fbp0 n
    · simp only [ne_eq, hne, not_false_eq_true, if_true, hnb, not_true_eq_false, if_false]
      refine ⟨by simp [hf], by simp [hb], ?_, ?_⟩
      · intro i
        simp only [hm i]
        by_cases hi : i = n
        · subst hi; simp [hne, hnb]
        · have : (i < n + 1) ↔ (i < n) := by omega
          simp [this]
      · simp [hw, List.range_succ, List.filter_append, hne, hnb]
    · simp only [ne_eq, hne, not_false_eq_true, if_true, hnb]
      refine ⟨by simp [hf], by simp [hb], ?_, ?_⟩
      · intro i
        by_cases hi : i = n
        · subst hi; simp [hne]
        · have : (i < n + 1) ↔ (i < n) := by omega
          simp [Function.update_noteq hi, hm i, this]
      · simp [hw, List.range_succ, List.filter_append, hne, hnb]

theorem bitLoop_inv (front back fbp0 buffer_chunk : Nat → Nat) (fb_chunk : Nat) (p : Pass)
    (hp : PassInv front back fbp0 (fb_chunk * 8) p)
    (hbuf : ∀ k, buffer_chunk k = fbp0 (fb_chunk * 8 + k)) (m : Nat) :
    PassInv front back fbp0 (fb_chunk * 8 + m)
      ((List.range m).foldl
        (fun q fb_chunk_bit => pixelStep front back buffer_chunk fb_chunk fb_chunk_bit q) p) := by
  induction m with
  | zero => simpa using hp
  | succ m ih =>
    rw [List.range_succ, List.foldl_append]
    exact pixelStep_inv front back fbp0 buffer_chunk fb_chunk m (fb_chunk * 8 + m) _ ih
      (hbuf m) rfl

theorem chunkStep_inv (front back fbp0 : Nat → Nat) (fb_chunk : Nat) (p : Pass)
    (hp : PassInv front back fbp0 (fb_chunk * 8) p) :
    PassInv front back fbp0 ((fb_chunk + 1) * 8) (chunkStep front back fb_chunk p) := by
  have h := bitLoop_inv front back fbp0 (fun k => p.fbp (fb_chunk * 8 + k)) fb_chunk p hp
    (fun k => by simp [hp.hfbp]) 8
  have e : (fb_chunk + 1) * 8 = fb_chunk * 8 + 8 := by ring
  rw [e]
  exact h

theorem diffLoop_inv (front back fbp0 : Nat → Nat) (chunks : Nat) :
    PassInv front back fbp0 (chunks * 8) (diffLoop chunks front back fbp0) := by
  induction chunks with
  | zero => exact ⟨rfl, rfl, fun i => by simp [diffLoop], by simp [diffLoop]⟩
  | succ c ih =>
    unfold diffLoop at ih ⊢
    rw [List.range_succ, List.foldl_append]
    exact chunkStep_inv front back fbp0 c _ ih

theorem diffWriter_inv (front back fbp0 : Nat → Nat) :
    PassInv front back fbp0 PIXELS (diffWriter front back fbp0) :=
  diffLoop_inv front back fbp0 CHUNKS

theorem PIXELS_eq : PIXELS = 96000 := by decide


theorem newbit_0101 : newbit 0x0101 = 0 := by decide

theorem newbit_black : newbit 0 = 0 := by decide

theorem startup_fbp (d : Device) (fbp0 : Nat → Nat) (heap0 : Block → Nat → Nat)
    (h1 : 96000 ≤ d.smem_len / 8) (i : Nat) (hi : i < 96000) :
    (startup d fbp0 heap0).fbp i = 0 := by
  have : i < d.smem_len / 8 := by omega
  simp [startup, memset, this]

theorem mulU32_wraps : mulU32 65536 65536 = 0 := by decide

theorem startup_back (d : Device) (fbp0 : Nat → Nat) (heap0 : Block → Nat → Nat)
    (h2 : 192000 ≤ mulU32 d.line_length d.yres) (i : Nat) (hi : i < 96000) :
    (startup d fbp0 heap0).heap (startup d fbp0 heap0).backCopyP i = 0x0101 := by
  have a : 2 * i < mulU32 d.line_length d.yres := by omega
  have b : 2 * i + 1 < mulU32 d.line_length d.yres := by omega
  simp [startup, memset16, a, b]

theorem cycle_back (capture : Nat → Nat) (s : State) :
    (cycle capture s).heap (cycle capture s).backCopyP = capture := by
  simp [cycle, swap, diffPass, readData]

theorem diffPass_eq (s : State) :
    diffPass s = { fbp := (passOf s).fbp, heap := s.heap, frontCopyP := s.frontCopyP,
                   backCopyP := s.backCopyP } := rfl

theorem diffPass_fbp (s : State) : (diffPass s).fbp = (passOf s).fbp := by
  rw [diffPass_eq]

theorem passOf_readData (capture : Nat → Nat) (s : State) (hne : s.frontCopyP ≠ s.backCopyP) :
    passOf (readData capture s) = diffWriter capture (s.heap s.backCopyP) s.fbp := by
  simp [passOf, readData, Function.update_noteq (Ne.symm hne)]

theorem pass_establishes (front back fbp0 : Nat → Nat)
    (hinv : ∀ i, i < 96000 → fbp0 i = newbit (back i)) (i : Nat) (hi : i < 96000) :
    (diffWriter front back fbp0).fbp i = newbit (front i) := by
  rw [(diffWriter_inv front back fbp0).hfbp i]
  by_cases hne : front i = back i
  · simp [hne, hinv i hi]
  · simp [hne, PIXELS_eq, hi]

theorem reachable_inv (d : Device) (h1 : 96000 ≤ d.smem_len / 8)
    (h2 : 192000 ≤ mulU32 d.line_length d.yres) (s : State) (hr : Reachable d s) :
    s.frontCopyP ≠ s.backCopyP ∧ ∀ i, i < 96000 → s.fbp i = newbit (s.heap s.backCopyP i) := by
  induction hr with
  | init fbp0 heap0 =>
    refine ⟨by simp [startup], fun i hi => ?_⟩
    rw [startup_fbp d fbp0 heap0 h1 i hi, startup_back d fbp0 heap0 h2 i hi, newbit_0101]
  | step capture s _ ih =>
    obtain ⟨hne, hcell⟩ := ih
    refine ⟨by simpa [cycle, swap, diffPass, readData] using Ne.symm hne, fun i hi => ?_⟩
    rw [cycle_back]
    have e : (cycle capture s).fbp = (passOf (readData capture s)).fbp := by
      simp [cycle, swap, diffPass]
    rw [e, passOf_readData capture s hne]
    exact pass_establishes capture _ _ hcell i hi


/-! ## Classification lemmas -/

set_option maxRecDepth 100000 in
theorem land_F8_byte : ∀ x, x < 256 → x &&& 0xF8 = 8 * (x / 8) := by decide

set_option maxRecDepth 100000 in
theorem land_FC_byte : ∀ x, x < 256 → x &&& 0xFC = 4 * (x / 4) := by decide

theorem land_low_byte (x m : Nat) (hm : (2 ^ 8 - 1) &&& m = m) : x &&& m = (x % 256) &&& m := by
  have e : x % 256 = x &&& (2 ^ 8 - 1) := (Nat.and_pow_two_sub_one_eq_mod x 8).symm
  rw [e, Nat.and_assoc, hm]

theorem land_F8 (x : Nat) : x &&& 0xF8 = 8 * (x % 256 / 8) := by
  rw [land_low_byte x 0xF8 (by decide)]
  exact land_F8_byte _ (Nat.mod_lt _ (by decide))

theorem land_FC (x : Nat) : x &&& 0xFC = 4 * (x % 256 / 4) := by
  rw [land_low_byte x 0xFC (by decide)]
  exact land_FC_byte _ (Nat.mod_lt _ (by decide))

theorem red_eq (s : Nat) (h : s < 65536) : red s = 8 * (s / 2048) := by
  unfold red
  rw [land_F8, Nat.shiftRight_eq_div_pow]
  omega

theorem green_eq (s : Nat) : green s = 4 * (s / 32 % 64) := by
  unfold green
  rw [land_FC, Nat.shiftRight_eq_div_pow]
  omega

theorem blue_eq (s : Nat) : blue s = 8 * (s % 32) := by
  unfold blue
  rw [land_F8, Nat.shiftLeft_eq]
  omega

theorem grayscale_eq (s : Nat) (h : s < 65536) :
    grayscale s = (8 * (s / 2048) + 4 * (s / 32 % 64) + 8 * (s % 32)) / 3 := by
  unfold grayscale
  rw [red_eq s h, green_eq, blue_eq]
  simp only []
  split <;> omega

/-- C1: for every 16-bit sample the bit computed in the loop is 1 exactly when the
floor of `(8*r5 + 4*g6 + 8*b5) / 3` is at least 140 and 0 otherwise; an average of
exactly 140 gives 1 and an average of exactly 139 gives 0. -/
theorem pixelClassifier_reference (s : Nat) (h : s < 65536) :
    (newbit s = if 140 ≤ (8 * (s / 2048) + 4 * (s / 32 % 64) + 8 * (s % 32)) / 3 then 1 else 0)
    ∧ ((8 * (s / 2048) + 4 * (s / 32 % 64) + 8 * (s % 32)) / 3 = 140 → newbit s = 1)
    ∧ ((8 * (s / 2048) + 4 * (s / 32 % 64) + 8 * (s % 32)) / 3 = 139 → newbit s = 0) := by
  have hg := grayscale_eq s h
  unfold newbit
  rw [hg]
  refine ⟨?_, ?_, ?_⟩
  · split <;> split <;> omega
  · intro e; rw [e]; rfl
  · intro e; rw [e]; rfl

/-- Witness for C1 at the sample `0xFD60` (r5 = 31, g6 = 43, b5 = 0), whose average is
exactly 140. -/
theorem pixelClassifier_reference_witness :
    (64864 < 65536)
    ∧ (8 * (64864 / 2048) + 4 * (64864 / 32 % 64) + 8 * (64864 % 32)) / 3 = 140
    ∧ newbit 64864 = 1 :=
  ⟨by decide, by decide, (pixelClassifier_reference 64864 (by decide)).2.1 (by decide)⟩

/-! ## Claims about the pass -/

theorem filter_length_congr (n : Nat) (p q : Nat → Bool) (h : ∀ i, i < n → p i = q i) :
    ((List.range n).filter p).length = ((List.range n).filter q).length := by
  congr 1
  apply List.filter_congr
  intro i hi
  exact h i (List.mem_range.mp hi)

theorem pass_counts (front back fbp0 : Nat → Nat)
    (hinv : ∀ i, i < 96000 → fbp0 i = newbit (back i)) :
    modifiedCells 96000 fbp0 (diffWriter front back fbp0).fbp = classDiffs 96000 back front
    ∧ (diffWriter front back fbp0).writes.length = classDiffs 96000 back front := by
  have hI := diffWriter_inv front back fbp0
  rw [PIXELS_eq] at hI
  constructor
  · unfold modifiedCells classDiffs
    apply filter_length_congr
    intro i hi
    rw [hI.hfbp i, hinv i hi]
    by_cases hne : front i = back i
    · simp [hne]
    · simp only [hi, hne, ne_eq, not_false_eq_true, and_self, if_true]
  · rw [hI.hwrites]
    unfold classDiffs
    apply filter_length_congr
    intro i hi
    rw [hinv i hi]
    by_cases hne : front i = back i
    · simp [hne]
    · have : (newbit (front i) = newbit (back i)) ↔ (newbit (back i) = newbit (front i)) :=
        eq_comm
      simp [hne, this]


/-! ## Consecutive passes -/

theorem cycle_ptrs (capture : Nat → Nat) (s : State) (hne : s.frontCopyP ≠ s.backCopyP) :
    (cycle capture s).frontCopyP ≠ (cycle capture s).backCopyP := by
  simpa [cycle, swap, diffPass, readData] using Ne.symm hne

theorem swap_fbp (s : State) : (swap s).fbp = s.fbp := by
  cases s
  rfl

theorem cycle_fbp_pass (capture : Nat → Nat) (s : State) :
    (cycle capture s).fbp = (passOf (readData capture s)).fbp := by
  rw [cycle, swap_fbp, diffPass_fbp]

theorem cycle_fbp (capture : Nat → Nat) (s : State) (hne : s.frontCopyP ≠ s.backCopyP) (i : Nat) :
    (cycle capture s).fbp i
      = if i < 96000 ∧ capture i ≠ s.heap s.backCopyP i then newbit (capture i) else s.fbp i := by
  rw [cycle_fbp_pass, passOf_readData capture s hne, (diffWriter_inv _ _ _).hfbp i, PIXELS_eq]

theorem next_pass_fbp (A B : Nat → Nat) (s : State) (hne : s.frontCopyP ≠ s.backCopyP) (i : Nat) :
    (diffPass (readData B (cycle A s))).fbp i
      = if i < 96000 ∧ B i ≠ A i then newbit (B i) else (cycle A s).fbp i := by
  rw [diffPass_fbp, passOf_readData B _ (cycle_ptrs A s hne), cycle_back,
    (diffWriter_inv _ _ _).hfbp i, PIXELS_eq]

theorem next_pass_writes (A B : Nat → Nat) (s : State) (hne : s.frontCopyP ≠ s.backCopyP) :
    (passOf (readData B (cycle A s))).writes
      = (List.range 96000).filter
          (fun i => decide (B i ≠ A i ∧ newbit (B i) ≠ (cycle A s).fbp i)) := by
  rw [passOf_readData B _ (cycle_ptrs A s hne), cycle_back, (diffWriter_inv _ _ _).hwrites,
    PIXELS_eq]

theorem startup_ptrs (d : Device) (fbp0 : Nat → Nat) (heap0 : Block → Nat → Nat) :
    (startup d fbp0 heap0).frontCopyP ≠ (startup d fbp0 heap0).backCopyP := by
  simp [startup]

theorem shortFill_back (fbp0 : Nat → Nat) (i : Nat) :
    (startup shortFillDevice fbp0 (fun _ _ => 0xFFFF)).heap
        (startup shortFillDevice fbp0 (fun _ _ => 0xFFFF)).backCopyP i
      = if i < 48000 then 0x0101 else 0xFFFF := by
  have hm : mulU32 shortFillDevice.line_length shortFillDevice.yres = 96000 := by decide
  simp only [startup, Function.update_same, memset16, hm]
  by_cases hi : i < 48000
  · have a : 2 * i < 96000 := by omega
    have b : 2 * i + 1 < 96000 := by omega
    simp [hi, a, b]
  · have a : ¬ 2 * i < 96000 := by omega
    have b : ¬ 2 * i + 1 < 96000 := by omega
    simp [hi, a, b]

/-- C2, counterexample. On `shortFillDevice` the back array starts as 0x0101 on the
first 48000 samples and keeps its prior contents 0xFFFF on the rest; a first capture
equal to that array followed by an all-0x0101 capture changes no cell and stores
nothing, while the two captures classify differently at position 95999. On
`smallMapDevice` cells from 24000 on keep their prior contents 1; an all-0x0101 capture
followed by an all-black capture changes cell 95999 although the two captures classify
alike everywhere. -/
theorem minimal_write_counterexample :
    (modifiedCells 96000
        (cycle (fun i => if i < 48000 then 0x0101 else 0xFFFF)
          (startup shortFillDevice (fun _ => 0) (fun _ _ => 0xFFFF))).fbp
        (diffPass (readData (fun _ => 0x0101)
          (cycle (fun i => if i < 48000 then 0x0101 else 0xFFFF)
            (startup shortFillDevice (fun _ => 0) (fun _ _ => 0xFFFF))))).fbp = 0
      ∧ (passOf (readData (fun _ => 0x0101)
          (cycle (fun i => if i < 48000 then 0x0101 else 0xFFFF)
            (startup shortFillDevice (fun _ => 0) (fun _ _ => 0xFFFF))))).writes = []
      ∧ 0 < classDiffs 96000 (fun i => if i < 48000 then 0x0101 else 0xFFFF) (fun _ => 0x0101))
    ∧ (0 < modifiedCells 96000
        (cycle (fun _ => 0x0101) (startup smallMapDevice (fun _ => 1) (fun _ _ => 0))).fbp
        (diffPass (readData (fun _ => 0)
          (cycle (fun _ => 0x0101) (startup smallMapDevice (fun _ => 1) (fun _ _ => 0))))).fbp
      ∧ classDiffs 96000 (fun _ => 0x0101) (fun _ => 0) = 0) := by
  have hp1 := startup_ptrs shortFillDevice (fun _ => 0) (fun _ _ => 0xFFFF)
  have hp2 := startup_ptrs smallMapDevice (fun _ => 1) (fun _ _ => 0)
  have c1 : ∀ i, i < 96000 →
      (cycle (fun i => if i < 48000 then 0x0101 else 0xFFFF)
        (startup shortFillDevice (fun _ => 0) (fun _ _ => 0xFFFF))).fbp i = 0 := by
    intro i hi
    rw [cycle_fbp _ _ hp1 i, shortFill_back]
    simp only [ne_eq, not_true_eq_false, and_false, if_false]
    exact startup_fbp shortFillDevice _ _ (by decide) i hi
  have c2 : (cycle (fun _ => 0x0101)
      (startup smallMapDevice (fun _ => 1) (fun _ _ => 0))).fbp 95999 = 1 := by
    rw [cycle_fbp _ _ hp2, startup_back smallMapDevice _ _ (by decide) 95999 (by decide)]
    simp [startup, memset, smallMapDevice]
  refine ⟨⟨?_, ?_, ?_⟩, ?_, ?_⟩
  · unfold modifiedCells
    rw [List.length_eq_zero, List.filter_eq_nil_iff]
    intro i hi
    have hi' := List.mem_range.mp hi
    rw [next_pass_fbp _ _ _ hp1 i, c1 i hi']
    simp [newbit_0101]
  · rw [next_pass_writes _ _ _ hp1, List.filter_eq_nil_iff]
    intro i hi
    rw [c1 i (List.mem_range.mp hi)]
    simp [newbit_0101]
  · unfold classDiffs
    apply @List.length_pos_of_mem _ 95999
    rw [List.mem_filter]
    exact ⟨List.mem_range.mpr (by decide), by decide⟩
  · unfold modifiedCells
    apply @List.length_pos_of_mem _ 95999
    rw [List.mem_filter]
    refine ⟨List.mem_range.mpr (by decide), ?_⟩
    rw [next_pass_fbp _ _ _ hp2 95999, c2]
    simp [newbit_black]
  · unfold classDiffs
    rw [List.length_eq_zero, List.filter_eq_nil_iff]
    intro i _
    simp [newbit_0101, newbit_black]

/-- C2, amended: on a device whose two start-up `memset` calls cover all 96000
positions (so the destination starts zeroed and every back sample starts as 0x0101),
for consecutive captures `A` then `B`, the pass for `A` being run from a reachable
state, the number of destination cells changed by the pass for `B`, and the number of
stores it performs, equal the number of positions below 96000 at which `A` and `B`
classify differently; cells from 96000 on are untouched. -/
theorem minimal_write (d : Device) (h1 : 96000 ≤ d.smem_len / 8)
    (h2 : 192000 ≤ mulU32 d.line_length d.yres) (s0 : State) (hr : Reachable d s0)
    (A B : Nat → Nat) :
    modifiedCells 96000 (cycle A s0).fbp (diffPass (readData B (cycle A s0))).fbp
        = classDiffs 96000 A B
    ∧ (passOf (readData B (cycle A s0))).writes.length = classDiffs 96000 A B
    ∧ ∀ i, 96000 ≤ i → (diffPass (readData B (cycle A s0))).fbp i = (cycle A s0).fbp i := by
  obtain ⟨hne, hcell⟩ := reachable_inv d h1 h2 (cycle A s0) (Reachable.step A s0 hr)
  rw [cycle_back] at hcell
  have hp := passOf_readData B (cycle A s0) hne
  rw [cycle_back] at hp
  rw [diffPass_fbp, hp]
  obtain ⟨c1, c2⟩ := pass_counts B A (cycle A s0).fbp hcell
  refine ⟨c1, c2, fun i hi => ?_⟩
  rw [(diffWriter_inv B A (cycle A s0).fbp).hfbp i]
  have : ¬ i < PIXELS := by rw [PIXELS_eq]; omega
  simp [this]

/-- Witness for C2: first capture all black, second capture all white, from the
start-up state of `sampleDevice`. -/
theorem minimal_write_witness :
    (96000 ≤ sampleDevice.smem_len / 8)
    ∧ (192000 ≤ mulU32 sampleDevice.line_length sampleDevice.yres)
    ∧ (passOf (readData (fun _ => 0xFFFF)
        (cycle (fun _ => 0) (startup sampleDevice (fun _ => 0) (fun _ _ => 0))))).writes.length
        = classDiffs 96000 (fun _ => 0) (fun _ => 0xFFFF) :=
  ⟨by decide, by decide,
    (minimal_write sampleDevice (by decide) (by decide) _ (Reachable.init _ _)
      (fun _ => 0) (fun _ => 0xFFFF)).2.1⟩

/-- C3: in every reachable state (start-up, or after any number of cycles with
arbitrary captures) each destination cell below 96000 equals the classification of
the back-buffer sample at that position, and immediately after the next pass each
such cell equals the classification of the front-buffer sample. -/
theorem destination_reflects_classification (d : Device) (h1 : 96000 ≤ d.smem_len / 8)
    (h2 : 192000 ≤ mulU32 d.line_length d.yres) (s : State) (hr : Reachable d s) :
    (∀ i, i < 96000 → s.fbp i = newbit (s.heap s.backCopyP i))
    ∧ ∀ capture i, i < 96000 →
        (diffPass (readData capture s)).fbp i
          = newbit ((diffPass (readData capture s)).heap
              (diffPass (readData capture s)).frontCopyP i) := by
  obtain ⟨hne, hcell⟩ := reachable_inv d h1 h2 s hr
  refine ⟨hcell, fun capture i hi => ?_⟩
  have hfront : (diffPass (readData capture s)).heap (diffPass (readData capture s)).frontCopyP
      = capture := by
    simp [diffPass, readData]
  rw [hfront, diffPass_fbp, passOf_readData capture s hne]
  exact pass_establishes capture _ _ hcell i hi

/-- Witness for C3: the state after one all-white capture on `sampleDevice`. -/
theorem destination_reflects_classification_witness :
    (96000 ≤ sampleDevice.smem_len / 8)
    ∧ (192000 ≤ mulU32 sampleDevice.line_length sampleDevice.yres)
    ∧ ∀ i, i < 96000 →
        (cycle (fun _ => 0xFFFF) (startup sampleDevice (fun _ => 0) (fun _ _ => 0))).fbp i
          = newbit ((cycle (fun _ => 0xFFFF)
              (startup sampleDevice (fun _ => 0) (fun _ _ => 0))).heap
                (cycle (fun _ => 0xFFFF)
                  (startup sampleDevice (fun _ => 0) (fun _ _ => 0))).backCopyP i) :=
  ⟨by decide, by decide,
    (destination_reflects_classification sampleDevice (by decide) (by decide) _
      (Reachable.step _ _ (Reachable.init _ _))).1⟩

/-- C4: for all buffer and destination contents the pass leaves the destination
cell of every position with equal front and back samples unchanged; when the two
buffers agree on all 96000 positions the pass performs no store and the destination
is unchanged as a whole. -/
theorem fast_path_skip (front back fbp0 : Nat → Nat) :
    (∀ i, front i = back i → (diffWriter front back fbp0).fbp i = fbp0 i)
    ∧ ((∀ i, i < 96000 → front i = back i) →
        (diffWriter front back fbp0).writes = [] ∧ (diffWriter front back fbp0).fbp = fbp0) := by
  have hI := diffWriter_inv front back fbp0
  rw [PIXELS_eq] at hI
  refine ⟨fun i he => by rw [hI.hfbp i]; simp [he], fun hall => ⟨?_, ?_⟩⟩
  · rw [hI.hwrites, List.filter_eq_nil_iff]
    intro i hi
    simp [hall i (List.mem_range.mp hi)]
  · funext i
    rw [hI.hfbp i]
    by_cases hi : i < 96000
    · simp [hall i hi]
    · simp [hi]

/-- Witness for C4: identical all-black buffers over a stale destination holding 1
in every cell. -/
theorem fast_path_skip_witness :
    (∀ i, i < 96000 → (fun _ : Nat => 0) i = (fun _ : Nat => 0) i)
    ∧ (diffWriter (fun _ => 0) (fun _ => 0) (fun _ => 1)).writes = []
    ∧ (diffWriter (fun _ => 0) (fun _ => 0) (fun _ => 1)).fbp = (fun _ => 1) :=
  ⟨fun _ _ => rfl,
    (fast_path_skip (fun _ => 0) (fun _ => 0) (fun _ => 1)).2 (fun _ _ => rfl)⟩


/-! ## Destination addressing -/

theorem newbit_white : newbit 0xFFFF = 1 := by decide

theorem newbit_bit (s : Nat) : newbit s = 0 ∨ newbit s = 1 := by
  unfold newbit
  split
  · exact Or.inl rfl
  · exact Or.inr rfl

theorem pixelStep_other (front back buffer_chunk : Nat → Nat) (fb_chunk fb_chunk_bit : Nat)
    (p : Pass) (j : Nat) (hj : j ≠ fb_chunk * 8 + fb_chunk_bit) :
    (pixelStep front back buffer_chunk fb_chunk fb_chunk_bit p).fbp j = p.fbp j := by
  unfold pixelStep
  by_cases h1 : front p.frontCopyIter = back p.backCopyIter
  · simp [h1]
  · by_cases h2 : newbit (front p.frontCopyIter) = buffer_chunk fb_chunk_bit
    · simp [h1, h2]
    · simp [h1, h2, Function.update_noteq hj]

theorem pixelStep_cell (front back buffer_chunk : Nat → Nat) (fb_chunk fb_chunk_bit : Nat)
    (p : Pass) :
    (pixelStep front back buffer_chunk fb_chunk fb_chunk_bit p).fbp (fb_chunk * 8 + fb_chunk_bit)
        = p.fbp (fb_chunk * 8 + fb_chunk_bit)
    ∨ (pixelStep front back buffer_chunk fb_chunk fb_chunk_bit p).fbp (fb_chunk * 8 + fb_chunk_bit)
        = newbit (front p.frontCopyIter) := by
  unfold pixelStep
  by_cases h1 : front p.frontCopyIter = back p.backCopyIter
  · simp [h1]
  · by_cases h2 : newbit (front p.frontCopyIter) = buffer_chunk fb_chunk_bit
    · simp [h1, h2]
    · simp [h1, h2]

theorem bitLoop_other (front back buffer_chunk : Nat → Nat) (fb_chunk : Nat) (j : Nat) (m : Nat)
    (hj : j < fb_chunk * 8 ∨ fb_chunk * 8 + m ≤ j) (p : Pass) :
    ((List.range m).foldl
        (fun q fb_chunk_bit => pixelStep front back buffer_chunk fb_chunk fb_chunk_bit q) p).fbp j
      = p.fbp j := by
  induction m with
  | zero => simp
  | succ m ih =>
    rw [List.range_succ, List.foldl_append]
    simp only [List.foldl_cons, List.foldl_nil]
    rw [pixelStep_other _ _ _ _ _ _ _ (by omega)]
    exact ih (by omega)

theorem chunkStep_other (front back : Nat → Nat) (fb_chunk : Nat) (p : Pass) (j : Nat)
    (hj : j < fb_chunk * 8 ∨ fb_chunk * 8 + 8 ≤ j) :
    (chunkStep front back fb_chunk p).fbp j = p.fbp j :=
  bitLoop_other front back _ fb_chunk j 8 hj p

/-- C5, counterexample: with an all-white capture over a zeroed destination the pass
stores into the distinct byte offsets 0, 1 and 12000, so the eight pixels of group 0
do not share one byte and the surface is not 12000 bytes of packed bits; and over a
destination byte holding `0xFF` the store for pixel 0 leaves `0x01`, clearing bit 7 of
that byte. -/
theorem bit_packed_counterexample :
    (diffWriter (fun _ => 0xFFFF) (fun _ => 0x0101) (fun _ => 0)).fbp 0 = 1
    ∧ (diffWriter (fun _ => 0xFFFF) (fun _ => 0x0101) (fun _ => 0)).fbp 1 = 1
    ∧ (diffWriter (fun _ => 0xFFFF) (fun _ => 0x0101) (fun _ => 0)).fbp 12000 = 1
    ∧ (diffWriter (fun _ => 0xFFFF) (fun _ => 0x0101) (fun _ => 0xFF)).fbp 0 = 1
    ∧ Nat.testBit 0xFF 7 = true
    ∧ Nat.testBit ((diffWriter (fun _ => 0xFFFF) (fun _ => 0x0101) (fun _ => 0xFF)).fbp 0) 7
        = false := by
  have h0 : ∀ fbp0 : Nat → Nat, ∀ i, i < 96000 →
      (diffWriter (fun _ => 0xFFFF) (fun _ => 0x0101) fbp0).fbp i = 1 := by
    intro fbp0 i hi
    rw [(diffWriter_inv _ _ fbp0).hfbp i, PIXELS_eq]
    simp [hi, newbit_white]
  refine ⟨h0 _ 0 (by decide), h0 _ 1 (by decide), h0 _ 12000 (by decide), h0 _ 0 (by decide),
    by decide, ?_⟩
  rw [h0 _ 0 (by decide)]
  decide

/-- C5, amended: the destination is addressed one byte per pixel. A store for the
pixel at `fb_chunk * 8 + fb_chunk_bit` leaves every other byte unchanged and leaves in
its own byte either the old value or the new bit; a group touches only the eight bytes
`fb_chunk * 8 .. fb_chunk * 8 + 7`; after a pass each byte holds its old value or the
bit of the front sample at the same offset, and that bit is 0 or 1. -/
theorem byte_per_pixel_writes :
    (∀ (front back buffer_chunk : Nat → Nat) (fb_chunk fb_chunk_bit : Nat) (p : Pass) (j : Nat),
        j ≠ fb_chunk * 8 + fb_chunk_bit →
        (pixelStep front back buffer_chunk fb_chunk fb_chunk_bit p).fbp j = p.fbp j)
    ∧ (∀ (front back buffer_chunk : Nat → Nat) (fb_chunk fb_chunk_bit : Nat) (p : Pass),
        (pixelStep front back buffer_chunk fb_chunk fb_chunk_bit p).fbp
            (fb_chunk * 8 + fb_chunk_bit) = p.fbp (fb_chunk * 8 + fb_chunk_bit)
        ∨ (pixelStep front back buffer_chunk fb_chunk fb_chunk_bit p).fbp
            (fb_chunk * 8 + fb_chunk_bit) = newbit (front p.frontCopyIter))
    ∧ (∀ (front back : Nat → Nat) (fb_chunk : Nat) (p : Pass) (j : Nat),
        (j < fb_chunk * 8 ∨ fb_chunk * 8 + 8 ≤ j) →
        (chunkStep front back fb_chunk p).fbp j = p.fbp j)
    ∧ (∀ (front back fbp0 : Nat → Nat) (i : Nat),
        (diffWriter front back fbp0).fbp i = fbp0 i
        ∨ (i < 96000 ∧ (diffWriter front back fbp0).fbp i = newbit (front i)))
    ∧ (∀ s : Nat, newbit s = 0 ∨ newbit s = 1) := by
  refine ⟨pixelStep_other, pixelStep_cell, chunkStep_other, ?_, newbit_bit⟩
  intro front back fbp0 i
  rw [(diffWriter_inv front back fbp0).hfbp i, PIXELS_eq]
  by_cases h : i < 96000 ∧ front i ≠ back i
  · exact Or.inr ⟨h.1, by rw [if_pos h]⟩
  · exact Or.inl (by rw [if_neg h])

/-- Witness for C5: the store for pixel 0 does not change the byte at offset 1. -/
theorem byte_per_pixel_writes_witness :
    (1 ≠ 0 * 8 + 0)
    ∧ (pixelStep (fun _ => 0xFFFF) (fun _ => 0x0101) (fun _ => 0) 0 0
        { fbp := fun _ => 0, frontCopyIter := 0, backCopyIter := 0, writes := [] }).fbp 1 = 0 :=
  ⟨by decide, byte_per_pixel_writes.1 (fun _ => 0xFFFF) (fun _ => 0x0101) (fun _ => 0) 0 0
    { fbp := fun _ => 0, frontCopyIter := 0, backCopyIter := 0, writes := [] } 1 (by decide)⟩

/-! ## First cycle -/

theorem first_cycle_black (d : Device) (h1 : 96000 ≤ d.smem_len / 8)
    (fbp0 : Nat → Nat) (heap0 : Block → Nat → Nat)
    (capture : Nat → Nat) (hblack : ∀ i, i < 96000 → capture i = 0) :
    (passOf (readData capture (startup d fbp0 heap0))).writes = []
    ∧ ∀ i, i < 96000 → (diffPass (readData capture (startup d fbp0 heap0))).fbp i = 0 := by
  have hne : (startup d fbp0 heap0).frontCopyP ≠ (startup d fbp0 heap0).backCopyP := by
    simp [startup]
  rw [diffPass_fbp, passOf_readData capture _ hne]
  have hI := diffWriter_inv capture ((startup d fbp0 heap0).heap (startup d fbp0 heap0).backCopyP)
    (startup d fbp0 heap0).fbp
  rw [PIXELS_eq] at hI
  constructor
  · rw [hI.hwrites, List.filter_eq_nil_iff]
    intro i hi
    have hi' := List.mem_range.mp hi
    simp [hblack i hi', startup_fbp d fbp0 heap0 h1 i hi', newbit_black]
  · intro i hi
    rw [hI.hfbp i]
    split
    · rw [hblack i hi, newbit_black]
    · exact startup_fbp d fbp0 heap0 h1 i hi

/-- C10, counterexample: from the start-up state of `sampleDevice` with an all-black
first capture the pass performs no store, so the number of stores is not 96000; the
same loop run over a single group performs no store either, not 8. -/
theorem first_cycle_counterexample :
    (passOf (readData (fun _ => 0)
        (startup sampleDevice (fun _ => 0) (fun _ _ => 0)))).writes.length ≠ 96000
    ∧ (diffLoop 1 (fun _ => 0) (fun _ => 0x0101) (fun _ => 0)).writes.length ≠ 8 := by
  constructor
  · rw [(first_cycle_black sampleDevice (by decide) (fun _ => 0) (fun _ _ => 0)
      (fun _ => 0) (fun _ _ => rfl)).1]
    decide
  · decide

/-- C10, amended: from the start-up state, when the first capture is all black on the
96000 pixel positions, the pass performs no store and afterwards every destination
cell below 96000 is 0 (off). -/
theorem first_cycle_all_black (d : Device) (h1 : 96000 ≤ d.smem_len / 8)
    (fbp0 : Nat → Nat) (heap0 : Block → Nat → Nat)
    (capture : Nat → Nat) (hblack : ∀ i, i < 96000 → capture i = 0) :
    (passOf (readData capture (startup d fbp0 heap0))).writes = []
    ∧ ∀ i, i < 96000 → (diffPass (readData capture (startup d fbp0 heap0))).fbp i = 0 :=
  first_cycle_black d h1 fbp0 heap0 capture hblack

/-- Witness for C10 on `sampleDevice` with arbitrary prior memory contents `0xAA`. -/
theorem first_cycle_all_black_witness :
    (96000 ≤ sampleDevice.smem_len / 8)
    ∧ (passOf (readData (fun _ => 0)
        (startup sampleDevice (fun _ => 0xAA) (fun _ _ => 0xAAAA)))).writes = [] :=
  ⟨by decide,
    (first_cycle_all_black sampleDevice (by decide) (fun _ => 0xAA)
      (fun _ _ => 0xAAAA) (fun _ => 0) (fun _ _ => rfl)).1⟩

/-! ## Buffer exchange -/

/-- C9: after the exchange the front pointer is the former back pointer and the back
pointer the former front pointer, the sample arrays and the destination are unchanged,
and two exchanges restore the original state. -/
theorem swap_exchanges (s : State) :
    (swap s).frontCopyP = s.backCopyP
    ∧ (swap s).backCopyP = s.frontCopyP
    ∧ (swap s).heap = s.heap
    ∧ (swap s).fbp = s.fbp
    ∧ swap (swap s) = s := by
  cases s
  exact ⟨rfl, rfl, rfl, rfl, rfl⟩

/-! ## Frame interval and sleep -/

theorem tdiv_million (n : Int) (hn : 0 < n) : Int.tdiv 1000000 n = 1000000 / n :=
  Int.tdiv_eq_ediv (by decide) (Int.le_of_lt hn)

theorem fpsOption_bounds (n : Int) (t0 t : Timing) (h0 : 0 ≤ t0.frameDuration)
    (h1 : t0.frameDuration ≤ 1000000) (h : fpsOption n t0 = some t) :
    0 ≤ t.frameDuration ∧ t.frameDuration ≤ 1000000 := by
  unfold fpsOption at h
  simp only at h
  split at h
  · rename_i hn
    injection h with h
    subst h
    simp only [tdiv_million n hn]
    exact ⟨Int.ediv_nonneg (by decide) (Int.le_of_lt hn), Int.ediv_le_self _ (by decide)⟩
  · split at h
    · cases h
    · injection h with h
      subst h
      exact ⟨h0, h1⟩

theorem fpsOptions_bounds (opts : List Int) (t0 t : Timing) (h0 : 0 ≤ t0.frameDuration)
    (h1 : t0.frameDuration ≤ 1000000) (h : fpsOptions opts t0 = some t) :
    0 ≤ t.frameDuration ∧ t.frameDuration ≤ 1000000 := by
  induction opts generalizing t0 with
  | nil =>
    simp only [fpsOptions] at h
    injection h with h
    subst h
    exact ⟨h0, h1⟩
  | cons n rest ih =>
    simp only [fpsOptions] at h
    cases hstep : fpsOption n t0 with
    | none => rw [hstep] at h; cases h
    | some t1 =>
      rw [hstep] at h
      obtain ⟨a, b⟩ := fpsOption_bounds n t0 t1 h0 h1 hstep
      exact ih t1 a b h

theorem initialTiming_frameDuration : initialTiming.frameDuration = 20000 := by decide

/-- C6: for a frame interval `T` produced by any sequence of fps options and an
elapsed time with `tv_sec ≥ 0` and `0 ≤ tv_usec < 1000000`, writing
`e = tv_sec * 1000000 + tv_usec`, the pacer calls `usleep (T - e)` when `e < T` and
does not sleep when `e ≥ T`. -/
theorem pacer_sleeps_remaining_budget (opts : List Int) (t : Timing)
    (hcfg : fpsOptions opts initialTiming = some t)
    (tv_sec tv_usec : Int) (hs : 0 ≤ tv_sec) (hu0 : 0 ≤ tv_usec) (hu1 : tv_usec < 1000000) :
    (tv_sec * 1000000 + tv_usec < t.frameDuration →
        pacer t.frameDuration tv_sec tv_usec
          = some (t.frameDuration - (tv_sec * 1000000 + tv_usec)))
    ∧ (t.frameDuration ≤ tv_sec * 1000000 + tv_usec →
        pacer t.frameDuration tv_sec tv_usec = none) := by
  obtain ⟨_, hT⟩ := fpsOptions_bounds opts initialTiming t
    (by rw [initialTiming_frameDuration]; decide) (by rw [initialTiming_frameDuration]; decide) hcfg
  unfold pacer
  by_cases hz : tv_sec = 0
  · subst hz
    constructor
    · intro h
      have h' : tv_usec < t.frameDuration := by omega
      simp [h']
    · intro h
      have h' : ¬ tv_usec < t.frameDuration := by omega
      simp [h']
  · constructor
    · intro h
      omega
    · intro _
      simp [hz]

/-- Witness for C6: `--fps 25` gives an interval of 40000 and an elapsed time of
5000 microseconds leads to a sleep of 35000. -/
theorem pacer_sleeps_remaining_budget_witness :
    fpsOptions [25] initialTiming = some { fps := 25, frameDuration := 40000 }
    ∧ ((0 : Int) * 1000000 + 5000 < 40000)
    ∧ pacer 40000 0 5000 = some (40000 - (0 * 1000000 + 5000)) :=
  ⟨by decide, by decide,
    (pacer_sleeps_remaining_budget [25] { fps := 25, frameDuration := 40000 } (by decide) 0 5000 (by decide)
      (by decide) (by decide)).1 (by decide)⟩

theorem fpsOption_pos (n : Int) (t : Timing) (h0 : 0 < n) (h1 : n ≤ 1000000) :
    fpsOption n t = some { fps := n, frameDuration := 1000000 / n } ∧ 0 < 1000000 / n := by
  constructor
  · unfold fpsOption
    simp [h0, tdiv_million n h0]
  · have : (1 : Int) ≤ 1000000 / n := Int.le_ediv_of_mul_le h0 (by omega)
    omega

theorem fpsOption_large (n : Int) (t : Timing) (h : 1000000 < n) :
    fpsOption n t = some { fps := n, frameDuration := 0 } := by
  have h0 : 0 < n := by omega
  unfold fpsOption
  simp [h0, tdiv_million n h0, Int.ediv_eq_zero_of_lt (by decide : (0 : Int) ≤ 1000000) h]

theorem fpsOption_nonpos (n : Int) (t : Timing) (h : n ≤ 0) (hd : 0 < t.frameDuration) :
    fpsOption n t
      = some { fps := 1000000 / t.frameDuration, frameDuration := t.frameDuration } := by
  have h0 : ¬ 0 < n := by omega
  have hz : t.frameDuration ≠ 0 := by omega
  unfold fpsOption
  simp [h0, hz, tdiv_million _ hd]

theorem fpsOptions_pos (opts : List Int) (t0 : Timing) (hd : 0 < t0.frameDuration)
    (hall : ∀ n, n ∈ opts → n ≤ 1000000) :
    ∃ t, fpsOptions opts t0 = some t ∧ 0 < t.frameDuration := by
  induction opts generalizing t0 with
  | nil => exact ⟨t0, rfl, hd⟩
  | cons n rest ih =>
    have hrest : ∀ m, m ∈ rest → m ≤ 1000000 := fun m hm => hall m (List.mem_cons_of_mem _ hm)
    by_cases hn : 0 < n
    · obtain ⟨e, hp⟩ := fpsOption_pos n t0 hn (hall n (List.mem_cons_self _ _))
      obtain ⟨t, ht, htp⟩ := ih { fps := n, frameDuration := 1000000 / n } hp hrest
      exact ⟨t, by simp only [fpsOptions, e]; exact ht, htp⟩
    · have e := fpsOption_nonpos n t0 (by omega) hd
      obtain ⟨t, ht, htp⟩ :=
        ih { fps := 1000000 / t0.frameDuration, frameDuration := t0.frameDuration } hd hrest
      exact ⟨t, by simp only [fpsOptions, e]; exact ht, htp⟩

/-- C8, counterexample: the option value 2000000 is accepted and yields a frame
interval of 0, which is not strictly positive; a following option value 0 then
divides by that zero interval. -/
theorem fps_option_interval_counterexample :
    (∃ t, fpsOptions [2000000] initialTiming = some t ∧ ¬ 0 < t.frameDuration)
    ∧ fpsOptions [2000000, 0] initialTiming = none :=
  ⟨⟨{ fps := 2000000, frameDuration := 0 }, by decide, by decide⟩, by decide⟩

/-- C8, amended: an fps option `n` with `0 < n ≤ 1000000` sets the interval to
`1000000 / n`, which is strictly positive; `n > 1000000` sets it to 0; `n ≤ 0` over a
positive interval keeps the interval and re-derives fps as `1000000 / interval`. The
initial interval is 20000. After any sequence of options that are all at most 1000000
the interval is strictly positive, and after any sequence it is not negative. -/
theorem fps_option_interval :
    (∀ (n : Int) (t : Timing), 0 < n → n ≤ 1000000 →
        fpsOption n t = some { fps := n, frameDuration := 1000000 / n } ∧ 0 < 1000000 / n)
    ∧ (∀ (n : Int) (t : Timing), 1000000 < n →
        fpsOption n t = some { fps := n, frameDuration := 0 })
    ∧ (∀ (n : Int) (t : Timing), n ≤ 0 → 0 < t.frameDuration →
        fpsOption n t
          = some { fps := 1000000 / t.frameDuration, frameDuration := t.frameDuration })
    ∧ initialTiming = { fps := 50, frameDuration := 20000 }
    ∧ (∀ opts : List Int, (∀ n, n ∈ opts → n ≤ 1000000) →
        ∃ t, fpsOptions opts initialTiming = some t ∧ 0 < t.frameDuration)
    ∧ (∀ (opts : List Int) (t : Timing), fpsOptions opts initialTiming = some t →
        0 ≤ t.frameDuration) := by
  refine ⟨fpsOption_pos, fpsOption_large, fpsOption_nonpos, by decide, ?_, ?_⟩
  · intro opts hall
    exact fpsOptions_pos opts initialTiming (by rw [initialTiming_frameDuration]; decide) hall
  · intro opts t h
    exact (fpsOptions_bounds opts initialTiming t (by rw [initialTiming_frameDuration]; decide)
      (by rw [initialTiming_frameDuration]; decide) h).1

/-- Witness for C8: the option value 25 over the initial timing. -/
theorem fps_option_interval_witness :
    ((0 : Int) < 25) ∧ ((25 : Int) ≤ 1000000)
    ∧ fpsOption 25 initialTiming = some { fps := 25, frameDuration := 1000000 / 25 }
    ∧ (0 : Int) < 1000000 / 25 :=
  ⟨by decide, by decide, fps_option_interval.1 25 initialTiming (by decide) (by decide)⟩

/-! ## Rectangle checks -/

theorem subU32_of_le (srcDim : Int) (dstDim : Nat) (h0 : (dstDim : Int) ≤ srcDim)
    (h1 : srcDim < 2 ^ 31) : (subU32 srcDim dstDim : Int) = srcDim - dstDim := by
  unfold subU32
  omega

theorem checkRect_large_source (copyRectX copyRectY : Nat) (width height : Int) (xres yres : Nat)
    (hx : (xres : Int) ≤ width) (hy : (yres : Int) ≤ height)
    (hw : width < 2 ^ 31) (hh : height < 2 ^ 31) :
    checkRect copyRectX copyRectY width height xres yres = Startup.exitFailure
      ↔ ((copyRectX : Int) > width - xres ∨ (copyRectY : Int) > height - yres) := by
  have ex := subU32_of_le width xres hx hw
  have ey := subU32_of_le height yres hy hh
  unfold checkRect
  by_cases a : copyRectX > subU32 width xres
  · simp only [a, if_true, true_iff]
    left; omega
  · by_cases b : copyRectY > subU32 height yres
    · simp only [a, b, if_true, if_false, true_iff]
      right; omega
    · simp only [a, b, if_false]
      constructor
      · intro h; cases h
      · intro h; omega

/-- C7, evaluation at the failing input: a 320x240 source and a 400x240 destination
with rectangle origin (0, 0). The origin exceeds `srcWidth - dstWidth = -80`, yet both
checks pass and start-up proceeds to the capture loop. -/
theorem small_source_not_rejected :
    ((0 : Int) > 320 - 400)
    ∧ subU32 320 400 = 4294967216
    ∧ startupGeometry 0 0 320 240 400 240 = Startup.proceeds := by
  decide

end Snag
